import Mathlib

/-!
Verification of the CommFlow storage/backup/mapping subsystem.

This file gives a shallow embedding of the persistence-layer code of the
CommFlow commission tracker (src/utils/backupManager.ts, src/utils/validation.ts,
src/domain/mappers.ts, src/domain/schemas.ts, src/services/PersistenceService.ts,
src/contexts/CommissionContext.tsx, src/hooks/useStats.ts) and proves the
testable properties stated in the design specification against it.

Modelling conventions:
* JSON values are modelled by the inductive `Json` (numbers as integers for
  backup payloads; the commission mappers carry prices as exact rationals,
  since the source arithmetic on prices is `x * 100` and `Math.round`).
* `localStorage` is an association list from string keys to stored strings.
  A stored string is abstracted by `Cell`: `Cell.parsable v` stands for a
  string that `JSON.parse` decodes to the value `v` (in particular the output
  of `JSON.stringify v`), and `Cell.unparsable s` stands for a string `s`
  that `JSON.parse` rejects.  `JSON.parse` is a function on strings, so every
  string is of exactly one of these two kinds.
* Asynchronous code is single-threaded and cooperative in the source
  (promise-driven, suspension only at `await`); the sync coordinator is
  modelled as a small-step transition system whose atomic steps correspond to
  the synchronous segments between `await` points.
-/

namespace CommFlow

/-! ## JSON value model -/

/-- Model of a JSON value as stored by the backup manager. -/
inductive Json where
  | null : Json
  | bool (b : Bool) : Json
  | num (n : Int) : Json
  | str (s : String) : Json
  | arr (xs : List Json) : Json
  | obj (fields : List (String × Json)) : Json
  deriving Repr

/-! ## SecurityValidator.sanitizeText (src/utils/validation.ts)

The source applies four global regex replacements followed by `trim`:
1. removal of `<script ...>...</script>` blocks (case-insensitive),
2. removal of `<iframe ...>...</iframe>` blocks (case-insensitive),
3. removal of every occurrence of the literal `javascript:` (case-insensitive),
4. removal of every occurrence of `on\w+\s*=` (case-insensitive).
The tag-block regex `<tag\b[^<]*(?:(?!<\/tag>)<[^<]*)*<\/tag>` matches from an
occurrence of `<tag` followed by a word boundary up to and including the first
subsequent `</tag>`; if no closing tag follows, there is no match at that
position and the scan advances one character.  All patterns are ASCII, so
case-insensitivity is ASCII lowercasing. -/

/-- Word characters of the regex class `\w` (ASCII letters, digits, underscore). -/
def isWordChar (c : Char) : Bool := c.isAlphanum || c = '_'

/-- Whitespace characters matched by the regex class `\s` (ASCII part). -/
def isJsSpace (c : Char) : Bool :=
  c = ' ' || c = '\t' || c = '\n' || c = '\r' || c = '\x0b' || c = '\x0c'

/-- Case-insensitive character comparison used by the `/i` regex flag. -/
def lowEq (a b : Char) : Bool := a.toLower = b.toLower

/-- Case-insensitively strip `pat` from the front of the input, returning the rest. -/
def stripPrefixCI : List Char → List Char → Option (List Char)
  | [], cs => some cs
  | _ :: _, [] => none
  | p :: ps, c :: cs => if lowEq p c then stripPrefixCI ps cs else none

/-- Scan forward for the first case-insensitive occurrence of `pat`,
returning the characters after that occurrence (fuelled by input length). -/
def dropThroughCI (pat : List Char) : Nat → List Char → Option (List Char)
  | 0, _ => none
  | _ + 1, [] => none
  | fuel + 1, c :: cs =>
    match stripPrefixCI pat (c :: cs) with
    | some rest => some rest
    | none => dropThroughCI pat fuel cs

/-- Word boundary test after an opening tag: the match position is a `\b`
exactly when the next character is absent or not a word character. -/
def boundaryAfter : List Char → Bool
  | [] => true
  | c :: _ => !isWordChar c

/-- Remove every `<tag ...>...</tag>` block, as the global tag-block regex
replacement does: at each position, if `<tag` with a word boundary occurs and a
closing `</tag>` follows, drop everything through that closing tag and
continue after it; otherwise keep the character and move on. -/
def removeTagBlocks (tag : List Char) : Nat → List Char → List Char
  | 0, cs => cs
  | _ + 1, [] => []
  | fuel + 1, c :: cs =>
    match stripPrefixCI ('<' :: tag) (c :: cs) with
    | some rest =>
      if boundaryAfter rest then
        match dropThroughCI ('<' :: '/' :: (tag ++ ['>'])) rest.length rest with
        | some rest2 => removeTagBlocks tag fuel rest2
        | none => c :: removeTagBlocks tag fuel cs
      else c :: removeTagBlocks tag fuel cs
    | none => c :: removeTagBlocks tag fuel cs

/-- Remove every case-insensitive occurrence of the literal `pat`, scanning
left to right without re-examining replaced text. -/
def removeLiteralCI (pat : List Char) : Nat → List Char → List Char
  | 0, cs => cs
  | _ + 1, [] => []
  | fuel + 1, c :: cs =>
    match stripPrefixCI pat (c :: cs) with
    | some rest => removeLiteralCI pat fuel rest
    | none => c :: removeLiteralCI pat fuel cs

/-- Try to match `on\w+\s*=` at the current position.  The classes `\w`, `\s`
and the character `=` are pairwise disjoint, so the greedy scan below is
exactly the regex behaviour. -/
def matchHandler (cs : List Char) : Option (List Char) :=
  match stripPrefixCI ['o', 'n'] cs with
  | none => none
  | some r =>
    let ws := r.takeWhile isWordChar
    let r2 := r.dropWhile isWordChar
    if ws.isEmpty then none
    else
      match r2.dropWhile isJsSpace with
      | '=' :: r4 => some r4
      | _ => none

/-- Remove every occurrence of `on\w+\s*=`. -/
def removeHandlers : Nat → List Char → List Char
  | 0, cs => cs
  | _ + 1, [] => []
  | fuel + 1, c :: cs =>
    match matchHandler (c :: cs) with
    | some rest => removeHandlers fuel rest
    | none => c :: removeHandlers fuel cs

/-- Leading/trailing whitespace removal performed by `String.prototype.trim`. -/
def jsTrim (cs : List Char) : List Char :=
  ((cs.dropWhile isJsSpace).reverse.dropWhile isJsSpace).reverse

/-- SecurityValidator.sanitizeText: strip script/iframe blocks, `javascript:`
occurrences and inline event-handler prefixes, then trim.  An empty input
returns the empty string via the falsiness guard in the source. -/
def sanitizeText (s : String) : String :=
  if s = "" then ""
  else
    let p0 := s.data
    let p1 := removeTagBlocks "script".data p0.length p0
    let p2 := removeTagBlocks "iframe".data p1.length p1
    let p3 := removeLiteralCI "javascript:".data p2.length p2
    let p4 := removeHandlers p3.length p3
    String.mk (jsTrim p4)

mutual
/-- SecurityValidator.sanitizeForStorage: recursive sanitization of every
string inside a JSON-like structure; numbers, booleans and null pass through. -/
def sanitizeForStorage : Json → Json
  | .null => .null
  | .bool b => .bool b
  | .num n => .num n
  | .str s => .str (sanitizeText s)
  | .arr xs => .arr (sanitizeJsonList xs)
  | .obj fs => .obj (sanitizeJsonFields fs)

def sanitizeJsonList : List Json → List Json
  | [] => []
  | x :: xs => sanitizeForStorage x :: sanitizeJsonList xs

def sanitizeJsonFields : List (String × Json) → List (String × Json)
  | [] => []
  | (k, v) :: fs => (k, sanitizeForStorage v) :: sanitizeJsonFields fs
end

/-! ## localStorage model -/

/-- Abstraction of one stored string: either a string that `JSON.parse`
decodes to `v`, or a string it rejects. -/
inductive Cell where
  | parsable (v : Json) : Cell
  | unparsable (s : String) : Cell

/-- Truthiness of a stored string under a JavaScript `if (value)` test.
Every parsable JSON text is non-empty, hence truthy; an unparsable string is
falsy exactly when it is empty. -/
def cellTruthy : Cell → Bool
  | .parsable _ => true
  | .unparsable s => !(s = "")

/-- The key/value map behind `localStorage`, as an association list in key
insertion order.  Keys are unique in a real `localStorage`. -/
def Store := List (String × Cell)

/-- localStorage.getItem: first binding of the key, if any. -/
def Store.get : Store → String → Option Cell
  | [], _ => none
  | (k', v') :: rest, k => if k' = k then some v' else Store.get rest k

/-- localStorage.setItem: overwrite the binding in place, or append a new one. -/
def Store.set : Store → String → Cell → Store
  | [], k, v => [(k, v)]
  | (k', v') :: rest, k, v =>
    if k' = k then (k, v) :: rest else (k', v') :: Store.set rest k v

/-- localStorage.removeItem: delete every binding of the key. -/
def Store.removeItem (st : Store) (k : String) : Store :=
  st.filter (fun p => !(p.1 = k))

/-- Keys of the store, in order (Object.keys of the storage object). -/
def Store.keys (st : Store) : List String := st.map Prod.fst

/-! ## BackupManager (src/utils/backupManager.ts) -/

/-- Logical key names of BackupManager.BACKUP_KEYS. -/
inductive BKey where
  | clients | clientsBackup | pending | pendingBackup
  | history | historyBackup | settings | settingsBackup | lastBackup
  deriving DecidableEq, Repr

/-- BACKUP_KEYS: logical key name to localStorage key. -/
def BACKUP_KEYS : BKey → String
  | .clients => "commflow-clients"
  | .clientsBackup => "commflow-clients-backup"
  | .pending => "commflow-pending-commissions"
  | .pendingBackup => "commflow-pending-commissions-backup"
  | .history => "commflow-history-commissions"
  | .historyBackup => "commflow-history-commissions-backup"
  | .settings => "commflow-settings"
  | .settingsBackup => "commflow-settings-backup"
  | .lastBackup => "commflow-last-backup-timestamp"

/-- Result of looking up `` `${key}Backup` `` in BACKUP_KEYS: only the four
primary data keys have a backup companion; for every other logical key the
lookup is undefined and the backup-copy step is skipped. -/
def backupOf : BKey → Option BKey
  | .clients => some .clientsBackup
  | .pending => some .pendingBackup
  | .history => some .historyBackup
  | .settings => some .settingsBackup
  | _ => none

/-- BackupManager.saveWithBackup: sanitize the value, capture the currently
stored primary string as the rollback value (when present and truthy), then
write the new value and refresh the last-backup timestamp.  The timestamp
argument stands for `new Date().toISOString()`. -/
def saveWithBackup (st : Store) (key : BKey) (data : Json) (now : String) : Store :=
  let sanitized := sanitizeForStorage data
  let current := st.get (BACKUP_KEYS key)
  let st1 :=
    match current with
    | some c =>
      if cellTruthy c then
        match backupOf key with
        | some bk => st.set (BACKUP_KEYS bk) c
        | none => st
      else st
    | none => st
  let st2 := st1.set (BACKUP_KEYS key) (Cell.parsable sanitized)
  st2.set (BACKUP_KEYS BKey.lastBackup) (Cell.parsable (Json.str now))

/-- BackupManager.loadWithBackupFallback: decode the primary value; on decode
failure (or a falsy stored string) decode the backup value; on both failing
return null rather than throwing. -/
def loadWithBackupFallback (st : Store) (key : BKey) : Option Json :=
  let tryBackup :=
    match backupOf key with
    | some bk =>
      match st.get (BACKUP_KEYS bk) with
      | some c =>
        if cellTruthy c then
          match c with
          | .parsable v => some v
          | .unparsable _ => none
        else none
      | none => none
    | none => none
  match st.get (BACKUP_KEYS key) with
  | some c =>
    if cellTruthy c then
      match c with
      | .parsable v => some v
      | .unparsable _ => tryBackup
    else tryBackup
  | none => tryBackup

/-- Prefix of the timestamped emergency snapshot keys. -/
def emergencyPrefix : String := "commflow-emergency-backup-"

/-- Prefix test on strings, by character list. -/
def strStartsWith (s pre : String) : Bool := pre.data.isPrefixOf s.data

/-- Lexicographic code-point comparison of strings, as used by the default
`Array.prototype.sort` comparator on the ASCII snapshot keys. -/
def listCharLe : List Char → List Char → Bool
  | [], _ => true
  | _ :: _, [] => false
  | a :: as, b :: bs => if a = b then listCharLe as bs else decide (a < b)

/-- Propositional form of the key ordering, for the sorting algorithm. -/
def keyLe (a b : String) : Prop := listCharLe a.data b.data = true

instance : DecidableRel keyLe := fun a b => instDecidableEqBool (listCharLe a.data b.data) true

/-- Ascending sort of the snapshot keys.  The source calls the default
`Array.prototype.sort`, whose specified result on these keys is the list
sorted by `keyLe`; insertion sort produces that result. -/
def sortKeysAsc (ks : List String) : List String := List.insertionSort keyLe ks

/-- Descending key list computed by cleanupEmergencyBackups before slicing. -/
def emergencyKeysDesc (st : Store) : List String :=
  (sortKeysAsc (st.keys.filter (fun k => strStartsWith k emergencyPrefix))).reverse

/-- BackupManager.cleanupEmergencyBackups: sort the emergency snapshot keys
descending and remove all but the three most recent. -/
def cleanupEmergencyBackups (st : Store) : Store :=
  ((emergencyKeysDesc st).drop 3).foldl Store.removeItem st

/-! ## Domain and storage record types (src/domain/schemas.ts)

A storage commission's `payment_status` and `status` are carried as raw
strings so that the behaviour of the mappers on values outside the schema
enumerations is part of the model; the zod schemas are modelled by the
`safeParseStorageCommission` decoder below.  Prices are exact rationals:
the only arithmetic the source performs on them is `x * 100` and
`Math.round`. -/

/-- Domain payment status, the zod enum `not-paid | half-paid | fully-paid`. -/
inductive PaymentStatus where
  | notPaid | halfPaid | fullyPaid
  deriving DecidableEq, Repr

/-- Domain workflow status, the zod enum `Pending | In Progress | Completed`. -/
inductive DomainStatus where
  | pending | inProgress | completed
  deriving DecidableEq, Repr

/-- Reference kind of a domain commission reference, `image | text`. -/
inductive RefType where
  | image | text
  deriving DecidableEq, Repr

/-- Client snapshot nested in a domain commission. -/
structure ClientInfo where
  id : String
  name : String
  contactInfo : String
  pfp : Option String
  deriving DecidableEq, Repr

/-- Reference attached to a domain commission. -/
structure CommissionRef where
  name : String
  url : Option String
  type : RefType
  deriving DecidableEq, Repr

/-- StorageCommission, the persisted record shape.  `description` and
`images` carry their zod defaults after parsing; `price` is the legacy
fractional field and `price_cents` the preferred integer field. -/
structure StorageCommission where
  id : String
  client_id : String
  client_name : String
  title : String
  description : String
  price : Option ℚ
  price_cents : Option Int
  payment_status : String
  status : String
  created_at : String
  updated_at : String
  images : List String
  deriving DecidableEq, Repr

/-- DomainCommission, the in-memory record shape consumed by the UI. -/
structure DomainCommission where
  id : String
  client : ClientInfo
  commType : String
  priceCents : Int
  description : String
  refs : List CommissionRef
  date : String
  paymentStatus : PaymentStatus
  status : DomainStatus
  originalDate : Option String
  completedDate : Option String
  deriving DecidableEq, Repr

/-! ## Mappers (src/domain/mappers.ts) -/

/-- mapPaymentStatusStorageToDomain: a switch over the three storage labels;
the switch has no default branch, so any other string yields undefined. -/
def mapPaymentStatusStorageToDomain (s : String) : Option PaymentStatus :=
  if s = "Not Paid" then some .notPaid
  else if s = "Half Paid" then some .halfPaid
  else if s = "Fully Paid" then some .fullyPaid
  else none

/-- mapPaymentStatusDomainToStorage: the inverse switch over the domain labels. -/
def mapPaymentStatusDomainToStorage : PaymentStatus → String
  | .notPaid => "Not Paid"
  | .halfPaid => "Half Paid"
  | .fullyPaid => "Fully Paid"

/-- Math.round: rounding half toward positive infinity, exact on rationals. -/
def roundHalfUp (q : ℚ) : Int := ⌊q + 1 / 2⌋

/-- Price coercion of storageCommissionToDomain: use `price_cents` when the
field is present, otherwise `Math.round((price || 0) * 100)` on the legacy
fractional price (a missing or zero `price` contributes zero either way). -/
def rawPriceCents (c : StorageCommission) : Int :=
  match c.price_cents with
  | some pc => pc
  | none => roundHalfUp (c.price.getD 0 * 100)

/-- Date part of an ISO timestamp, `s.split('T')[0]`. -/
def dateOnly (s : String) : String := String.mk (s.data.takeWhile (fun c => c ≠ 'T'))

/-- Image references synthesized from the stored image list:
`images.map((img, i) => ({name: 'Image ' + (i+1), url: img, type: 'image'}))`. -/
def enumImageRefs (start : Nat) : List String → List CommissionRef
  | [] => []
  | img :: rest =>
    { name := "Image " ++ toString (start + 1), url := some img, type := RefType.image }
      :: enumImageRefs (start + 1) rest

/-- storageCommissionToDomain: build the domain record, then validate it with
DomainCommissionSchema.parse inside a try/catch that turns any validation
failure into undefined.  The two reachable failure points are an unmapped
payment status (the enum check) and a negative cents value (the nonnegativity
check); all other generated fields satisfy the schema by construction. -/
def storageCommissionToDomain (c : StorageCommission) : Option DomainCommission :=
  let priceCents := rawPriceCents c
  let status :=
    if c.status = "completed" then DomainStatus.completed
    else if c.status = "in-progress" then DomainStatus.inProgress
    else DomainStatus.pending
  let date := dateOnly c.created_at
  match mapPaymentStatusStorageToDomain c.payment_status with
  | none => none
  | some ps =>
    if priceCents < 0 then none
    else
      some {
        id := c.id
        client := { id := c.client_id, name := c.client_name, contactInfo := "", pfp := none }
        commType := c.title
        priceCents := priceCents
        description := c.description
        refs := enumImageRefs 0 c.images
        date := date
        paymentStatus := ps
        status := status
        originalDate := if c.status = "completed" then some date else none
        completedDate := if c.status = "completed" then some (dateOnly c.updated_at) else none }

/-- Image field selection of domainCommissionToStorage, `r.url || r.name`:
the name is used when the url is absent or the empty string (both falsy). -/
def urlOrName (r : CommissionRef) : String :=
  match r.url with
  | some u => if u = "" then r.name else u
  | none => r.name

/-- domainCommissionToStorage: the reverse mapping used on the persistence
path.  The `now` argument stands for `new Date().toISOString()`; the record
it returns has no legacy `price` field. -/
def domainCommissionToStorage (c : DomainCommission) (now : String) : StorageCommission :=
  { id := c.id
    client_id := c.client.id
    client_name := c.client.name
    title := c.commType
    description := c.description
    price := none
    price_cents := some c.priceCents
    payment_status := mapPaymentStatusDomainToStorage c.paymentStatus
    status :=
      match c.status with
      | .completed => "completed"
      | .inProgress => "in-progress"
      | .pending => "pending"
    created_at := c.date ++ "T00:00:00.000Z"
    updated_at := now
    images := (c.refs.filter (fun r => r.type = RefType.image)).map urlOrName }

/-! ## Schema validation and bulk load (src/domain/schemas.ts,
src/services/PersistenceService.ts) -/

/-- Raw decoded commission record before schema validation.  Optional fields
model absent JSON properties; `price_cents` is a raw number whose integrality
the schema still has to check. -/
structure RawCommission where
  id : String
  client_id : String
  client_name : String
  title : String
  description : Option String
  price : Option ℚ
  price_cents : Option ℚ
  payment_status : String
  status : String
  created_at : String
  updated_at : String
  images : Option (List String)
  deriving DecidableEq, Repr

/-- StorageCommissionSchema.safeParse: enforce the payment-status and status
enumerations, integrality of `price_cents`, the refinement that at least one
of `price`/`price_cents` is present, and apply the defaults for `description`
and `images`. -/
def safeParseStorageCommission (r : RawCommission) : Option StorageCommission :=
  if (r.payment_status = "Not Paid" ∨ r.payment_status = "Half Paid" ∨
        r.payment_status = "Fully Paid") ∧
      (r.status = "pending" ∨ r.status = "in-progress" ∨ r.status = "completed") ∧
      (∀ q ∈ r.price_cents, q.den = 1) ∧
      (r.price.isSome ∨ r.price_cents.isSome) then
    some {
      id := r.id
      client_id := r.client_id
      client_name := r.client_name
      title := r.title
      description := r.description.getD ""
      price := r.price
      price_cents := r.price_cents.map Rat.num
      payment_status := r.payment_status
      status := r.status
      created_at := r.created_at
      updated_at := r.updated_at
      images := r.images.getD [] }
  else none

/-- PersistenceService.getCommissions over an already-loaded raw array:
`raw.map(r => safeParse(r)).filter(Boolean)` keeps exactly the elements that
validate and drops (with a logged skip) the ones that do not. -/
def getCommissions (raws : List RawCommission) : List StorageCommission :=
  raws.filterMap safeParseStorageCommission

/-! ## Commission context (src/contexts/CommissionContext.tsx) -/

/-- Status of a pending (active) commission in the context state. -/
inductive PendStatus where
  | pending | inProgress
  deriving DecidableEq, Repr

/-- PendingCommission, the context record for active projects.  `isPinned`
is optional in the source and absent on records built by the workflow
transitions. -/
structure PendingCommission where
  id : String
  client : ClientInfo
  commType : String
  price : ℚ
  description : String
  refs : List CommissionRef
  date : String
  paymentStatus : PaymentStatus
  isPinned : Option Bool
  status : PendStatus
  deriving DecidableEq, Repr

/-- HistoryCommission, the context record for completed projects. -/
structure HistoryCommission where
  id : String
  client : ClientInfo
  commType : String
  price : ℚ
  description : String
  refs : List CommissionRef
  date : String
  paymentStatus : PaymentStatus
  isPinned : Option Bool
  originalDate : String
  completedDate : String
  deriving DecidableEq, Repr

/-- Commission context state: the pending and completed partitions. -/
structure CommState where
  pending : List PendingCommission
  history : List HistoryCommission
  deriving DecidableEq, Repr

/-- markCommissionIncomplete: find the completed commission, move it back to
the pending partition with status Pending and the original start date as its
date, and remove it from the history partition.  The persistence move is the
bucket relocation `moveCommission(id, 'completed', 'pending')`; the state
update is modelled here. -/
def markCommissionIncomplete (st : CommState) (id : String) : CommState :=
  match st.history.find? (fun c => c.id == id) with
  | none => st
  | some c =>
    let p : PendingCommission := {
      id := c.id
      client := c.client
      commType := c.commType
      price := c.price
      description := c.description
      refs := c.refs
      date := c.originalDate
      paymentStatus := c.paymentStatus
      isPinned := none
      status := PendStatus.pending }
    { pending := st.pending ++ [p]
      history := st.history.filter (fun c => !(c.id == id)) }

/-! ## Sync coordinator (src/hooks/useStats.ts)

The source is single-threaded and promise-driven: the flag test
`if (isCurrentlySyncing) return` and the assignment `isCurrentlySyncing =
true` run in one synchronous segment with no intervening await, so they form
one atomic step; the paired fetch `Promise.all([loadAllClients(),
loadAllCommissions()])` is issued in that same segment; the finally block
clears the flag when the fetch settles.  Each task below models one
`syncNow()` invocation, whether it comes from a direct caller, a poll-timer
tick, or `triggerDataSync` (which performs the same flag test). -/

/-- Phase of one `syncNow()` invocation. -/
inductive SyncPhase where
  | ready | inFlight | noop | finished
  deriving DecidableEq, Repr

/-- Global sync coordinator state: the module-level `isCurrentlySyncing`
flag, the phase of each invocation, and how many times each collection has
been fetched. -/
structure SyncState where
  flag : Bool
  tasks : List SyncPhase
  clientFetches : Nat
  commissionFetches : Nat
  deriving DecidableEq, Repr

/-- Initial state: flag clear, `n` invocations about to run, nothing fetched. -/
def initSync (n : Nat) : SyncState :=
  { flag := false, tasks := List.replicate n .ready, clientFetches := 0, commissionFetches := 0 }

/-- Atomic steps of the sync coordinator. -/
inductive SyncStep : SyncState → SyncState → Prop where
  | enter (s : SyncState) (i : Nat) (h : s.tasks.get? i = some .ready) (hf : s.flag = false) :
      SyncStep s { flag := true, tasks := s.tasks.set i .inFlight,
                   clientFetches := s.clientFetches + 1,
                   commissionFetches := s.commissionFetches + 1 }
  | skip (s : SyncState) (i : Nat) (h : s.tasks.get? i = some .ready) (hf : s.flag = true) :
      SyncStep s { flag := true, tasks := s.tasks.set i .noop,
                   clientFetches := s.clientFetches,
                   commissionFetches := s.commissionFetches }
  | finish (s : SyncState) (i : Nat) (h : s.tasks.get? i = some .inFlight) :
      SyncStep s { flag := false, tasks := s.tasks.set i .finished,
                   clientFetches := s.clientFetches,
                   commissionFetches := s.commissionFetches }

/-- Reachability from the initial state with `n` invocations. -/
def SyncReachable (n : Nat) (s : SyncState) : Prop :=
  Relation.ReflTransGen SyncStep (initSync n) s

/-- Number of tasks currently in a given phase. -/
def countPhase (l : List SyncPhase) (p : SyncPhase) : Nat :=
  (l.filter (fun q => q = p)).length

/-- Number of fetch rounds currently running. -/
def inFlightCount (s : SyncState) : Nat := countPhase s.tasks .inFlight

/-- Number of invocations that ever initiated a fetch round. -/
def enteredCount (s : SyncState) : Nat :=
  countPhase s.tasks .inFlight + countPhase s.tasks .finished

/-! ## Store lemmas -/

theorem store_get_set_self (st : Store) (k : String) (v : Cell) :
    (st.set k v).get k = some v := by
  induction st with
  | nil => simp [Store.set, Store.get]
  | cons p rest ih =>
    obtain ⟨k', v'⟩ := p
    by_cases h : k' = k
    · simp [Store.set, h, Store.get]
    · simp [Store.set, h, Store.get, ih]

theorem store_get_set_ne (st : Store) (k k' : String) (v : Cell) (h : k' ≠ k) :
    (st.set k v).get k' = st.get k' := by
  induction st with
  | nil => simp [Store.set, Store.get, Ne.symm h]
  | cons p rest ih =>
    obtain ⟨k'', v''⟩ := p
    by_cases hk : k'' = k
    · subst hk
      simp [Store.set, Store.get, h, Ne.symm h]
    · by_cases hk' : k'' = k'
      · simp [Store.set, hk, Store.get, hk', h]
      · simp [Store.set, hk, Store.get, hk', ih]

/-- Value of the primary slot right after a save: the sanitized new value,
regardless of the previous store contents (the trailing timestamp write goes
to a different key for every logical key except `lastBackup` itself). -/
theorem save_get_primary (st : Store) (key : BKey) (data : Json) (now : String)
    (h : key ≠ BKey.lastBackup) :
    (saveWithBackup st key data now).get (BACKUP_KEYS key)
      = some (Cell.parsable (sanitizeForStorage data)) := by
  cases key <;> simp only [saveWithBackup] <;>
    first
      | exact absurd rfl h
      | rw [store_get_set_ne _ _ _ _ (by simp [BACKUP_KEYS]), store_get_set_self]

/-- Value of the backup slot right after a save: the previously stored
primary value, captured before the new write. -/
theorem save_get_backup (st : Store) (key bk : BKey) (data : Json) (now : String) (c : Cell)
    (hbk : backupOf key = some bk)
    (hcur : st.get (BACKUP_KEYS key) = some c)
    (htr : cellTruthy c = true) :
    (saveWithBackup st key data now).get (BACKUP_KEYS bk) = some c := by
  cases key <;> simp only [backupOf, Option.some.injEq, reduceCtorEq] at hbk <;>
    try exact absurd hbk (by simp)
  all_goals
    subst hbk
    simp only [saveWithBackup, BACKUP_KEYS] at *
    rw [hcur]
    simp only [htr, if_true, backupOf]
    rw [store_get_set_ne _ _ _ _ (by decide), store_get_set_ne _ _ _ _ (by decide),
      store_get_set_self]

/-- C1: saveWithBackup captures the previously stored primary value as the
rollback value strictly before writing the new one — the backup slot after a
save holds exactly the value that was stored under the primary key before the
call — and therefore two back-to-back saves of `v1` then `v2` under
`settings` leave the stored form of `v1` in the backup slot and the stored
form of `v2` in the primary slot, from any starting store. -/
theorem saveWithBackup_captures_rollback_before_write
    (st : Store) (key bk : BKey) (data : Json) (now : String) (c : Cell)
    (hbk : backupOf key = some bk)
    (hcur : st.get (BACKUP_KEYS key) = some c)
    (htr : cellTruthy c = true)
    (st0 : Store) (v1 v2 : Json) (n1 n2 : String) :
    (saveWithBackup st key data now).get (BACKUP_KEYS bk) = some c
    ∧ (saveWithBackup (saveWithBackup st0 .settings v1 n1) .settings v2 n2).get
        (BACKUP_KEYS .settingsBackup) = some (.parsable (sanitizeForStorage v1))
    ∧ (saveWithBackup (saveWithBackup st0 .settings v1 n1) .settings v2 n2).get
        (BACKUP_KEYS .settings) = some (.parsable (sanitizeForStorage v2)) := by
  refine ⟨save_get_backup st key bk data now c hbk hcur htr, ?_, ?_⟩
  · exact save_get_backup _ .settings .settingsBackup v2 n2 _ rfl
      (save_get_primary st0 .settings v1 n1 (by decide)) rfl
  · exact save_get_primary _ .settings v2 n2 (by decide)

/-- Witness for the C1 theorem at a concrete store, key and values. -/
theorem saveWithBackup_captures_rollback_before_write_witness :
    (saveWithBackup [(BACKUP_KEYS BKey.clients, Cell.parsable (Json.num 7))]
        BKey.clients (Json.num 8) "t1").get (BACKUP_KEYS BKey.clientsBackup)
      = some (Cell.parsable (Json.num 7))
    ∧ (saveWithBackup (saveWithBackup [] .settings (Json.num 1) "t1") .settings
        (Json.num 2) "t2").get (BACKUP_KEYS .settingsBackup)
      = some (.parsable (sanitizeForStorage (Json.num 1)))
    ∧ (saveWithBackup (saveWithBackup [] .settings (Json.num 1) "t1") .settings
        (Json.num 2) "t2").get (BACKUP_KEYS .settings)
      = some (.parsable (sanitizeForStorage (Json.num 2))) :=
  saveWithBackup_captures_rollback_before_write
    [(BACKUP_KEYS BKey.clients, Cell.parsable (Json.num 7))]
    BKey.clients BKey.clientsBackup (Json.num 8) "t1" (Cell.parsable (Json.num 7))
    rfl (by simp [Store.get, BACKUP_KEYS]) rfl [] (Json.num 1) (Json.num 2) "t1" "t2"

/-- C5 counterexample: saving a value and immediately loading it back does
not always return the saved value, because saveWithBackup stores the
sanitized form.  For the string value `javascript:alert(1)` the sanitizer
strips the `javascript:` prefix, so the round trip returns `alert(1)`
instead of the saved value. -/
theorem save_then_load_not_identity :
    loadWithBackupFallback
        (saveWithBackup [] BKey.settings (Json.str "javascript:alert(1)") "t0")
        BKey.settings
      ≠ some (Json.str "javascript:alert(1)") := by
  intro h
  have e : loadWithBackupFallback
      (saveWithBackup [] BKey.settings (Json.str "javascript:alert(1)") "t0")
      BKey.settings = some (Json.str "alert(1)") := rfl
  rw [e] at h
  have : "alert(1)" = "javascript:alert(1)" := by
    injection Option.some.inj h
  simp at this

/-- C5 amended: for every key other than the internal last-backup timestamp
key (whose slot the save immediately overwrites with the timestamp), a
saveWithBackup followed immediately by loadWithBackupFallback on the same
key returns the sanitized form of the just-saved value — the value as it was
stored, and equal to the saved value whenever sanitization leaves it
unchanged. -/
theorem save_then_load_returns_sanitized
    (st : Store) (key : BKey) (data : Json) (now : String)
    (h : key ≠ BKey.lastBackup) :
    loadWithBackupFallback (saveWithBackup st key data now) key
      = some (sanitizeForStorage data) := by
  have hp := save_get_primary st key data now h
  simp [loadWithBackupFallback, hp, cellTruthy]

/-- Witness for the amended C5 theorem at a concrete store, key and value. -/
theorem save_then_load_returns_sanitized_witness :
    loadWithBackupFallback (saveWithBackup [] BKey.settings (Json.str "hello") "t0")
        BKey.settings
      = some (sanitizeForStorage (Json.str "hello")) :=
  save_then_load_returns_sanitized [] BKey.settings (Json.str "hello") "t0" (by decide)

/-- C6: loadWithBackupFallback decodes the primary value first; on primary
decode failure it decodes the backup; when both fail (or neither exists) it
returns the absent result instead of throwing; and in particular replacing
the primary value with unparsable data right after a save makes the call
return the value that the save captured in the backup slot. -/
theorem loadWithBackupFallback_fallback_order
    (st : Store) (key bk : BKey) (v w v0 data : Json) (s junk : String) (now : String) :
    (st.get (BACKUP_KEYS key) = some (.parsable v) → loadWithBackupFallback st key = some v)
    ∧ (backupOf key = some bk → st.get (BACKUP_KEYS key) = some (.unparsable s) →
        st.get (BACKUP_KEYS bk) = some (.parsable w) → loadWithBackupFallback st key = some w)
    ∧ ((∀ u, st.get (BACKUP_KEYS key) ≠ some (.parsable u)) →
        (∀ bk', backupOf key = some bk' → ∀ u, st.get (BACKUP_KEYS bk') ≠ some (.parsable u)) →
        loadWithBackupFallback st key = none)
    ∧ (st.get (BACKUP_KEYS BKey.settings) = some (.parsable v0) →
        loadWithBackupFallback
          ((saveWithBackup st BKey.settings data now).set
            (BACKUP_KEYS BKey.settings) (.unparsable junk))
          BKey.settings = some v0) := by
  refine ⟨?_, ?_, ?_, ?_⟩
  · intro hp
    simp [loadWithBackupFallback, hp, cellTruthy]
  · intro hbk hp hb
    simp [loadWithBackupFallback, hp, hbk, hb, cellTruthy]
  · intro hp hb
    cases hk : st.get (BACKUP_KEYS key) with
    | none =>
      cases hbk : backupOf key with
      | none => simp [loadWithBackupFallback, hk, hbk]
      | some bk' =>
        cases hk' : st.get (BACKUP_KEYS bk') with
        | none => simp [loadWithBackupFallback, hk, hbk, hk']
        | some c' =>
          cases c' with
          | parsable u => exact absurd hk' (hb bk' hbk u)
          | unparsable s' => simp [loadWithBackupFallback, hk, hbk, hk', cellTruthy]
    | some c =>
      cases c with
      | parsable u => exact absurd hk (hp u)
      | unparsable s' =>
        cases hbk : backupOf key with
        | none => simp [loadWithBackupFallback, hk, hbk, cellTruthy]
        | some bk' =>
          cases hk' : st.get (BACKUP_KEYS bk') with
          | none => simp [loadWithBackupFallback, hk, hbk, hk', cellTruthy]
          | some c' =>
            cases c' with
            | parsable u => exact absurd hk' (hb bk' hbk u)
            | unparsable s'' => simp [loadWithBackupFallback, hk, hbk, hk', cellTruthy]
  · intro h0
    have hb : ((saveWithBackup st BKey.settings data now).set
        (BACKUP_KEYS BKey.settings) (.unparsable junk)).get (BACKUP_KEYS BKey.settingsBackup)
        = some (.parsable v0) := by
      rw [store_get_set_ne _ _ _ _ (by decide)]
      exact save_get_backup st .settings .settingsBackup data now _ rfl h0 rfl
    have hp : ((saveWithBackup st BKey.settings data now).set
        (BACKUP_KEYS BKey.settings) (.unparsable junk)).get (BACKUP_KEYS BKey.settings)
        = some (.unparsable junk) := store_get_set_self _ _ _
    simp [loadWithBackupFallback, hp, hb, backupOf, cellTruthy]

/-- Witness for the C6 theorem: a concrete store whose primary settings
value is corrupt and whose backup parses, and a concrete corrupt-after-save
sequence, both falling back as stated. -/
theorem loadWithBackupFallback_fallback_order_witness :
    loadWithBackupFallback
        ((saveWithBackup [(BACKUP_KEYS BKey.settings, Cell.parsable (Json.num 3))]
            BKey.settings (Json.num 4) "t0").set
          (BACKUP_KEYS BKey.settings) (.unparsable "garbage"))
        BKey.settings = some (Json.num 3) :=
  (loadWithBackupFallback_fallback_order
    [(BACKUP_KEYS BKey.settings, Cell.parsable (Json.num 3))]
    BKey.settings BKey.settingsBackup (Json.num 0) (Json.num 0) (Json.num 3) (Json.num 4)
    "" "garbage" "t0").2.2.2 (by simp [Store.get])

/-! ## Mapper lemmas -/

/-- Explicit form of a successful storage-to-domain mapping. -/
theorem storageCommissionToDomain_eq (c : StorageCommission) (ps : PaymentStatus)
    (hps : mapPaymentStatusStorageToDomain c.payment_status = some ps)
    (hnn : 0 ≤ rawPriceCents c) :
    storageCommissionToDomain c = some {
      id := c.id
      client := { id := c.client_id, name := c.client_name, contactInfo := "", pfp := none }
      commType := c.title
      priceCents := rawPriceCents c
      description := c.description
      refs := enumImageRefs 0 c.images
      date := dateOnly c.created_at
      paymentStatus := ps
      status :=
        if c.status = "completed" then DomainStatus.completed
        else if c.status = "in-progress" then DomainStatus.inProgress
        else DomainStatus.pending
      originalDate := if c.status = "completed" then some (dateOnly c.created_at) else none
      completedDate := if c.status = "completed" then some (dateOnly c.updated_at) else none } := by
  simp [storageCommissionToDomain, hps, not_lt.mpr hnn]

/-- Any successful storage-to-domain mapping carries the coerced cents value. -/
theorem storageCommissionToDomain_priceCents (c : StorageCommission) (d : DomainCommission)
    (hd : storageCommissionToDomain c = some d) : d.priceCents = rawPriceCents c := by
  simp only [storageCommissionToDomain] at hd
  split at hd
  · exact absurd hd (by simp)
  · split at hd
    · exact absurd hd (by simp)
    · have := Option.some.inj hd
      rw [← this]

/-- Concrete legacy-price record of the C2 scenario: price 49.99 dollars,
no price_cents field. -/
def legacyPriceExample : StorageCommission :=
  { id := "c1", client_id := "cl1", client_name := "Ada", title := "Sketch"
    description := "", price := some (4999 / 100), price_cents := none
    payment_status := "Not Paid", status := "pending"
    created_at := "2024-01-01T00:00:00.000Z", updated_at := "2024-01-02T00:00:00.000Z"
    images := [] }

/-- C2: storageCommissionToDomain uses `price_cents` unchanged when present
and otherwise derives the cents value as `Math.round(price * 100)` (rounding
half toward positive infinity); in particular a record with price 49.99 and
no `price_cents` round-trips back to storage with `price_cents = 4999`. -/
theorem storageCommissionToDomain_price_coercion
    (c : StorageCommission) (d : DomainCommission) (pc : Int) (q : ℚ)
    (hd : storageCommissionToDomain c = some d) :
    (c.price_cents = some pc → d.priceCents = pc)
    ∧ (c.price_cents = none → c.price = some q → d.priceCents = roundHalfUp (q * 100))
    ∧ (∃ dEx, storageCommissionToDomain legacyPriceExample = some dEx
        ∧ (domainCommissionToStorage dEx "2024-01-03T00:00:00.000Z").price_cents
            = some 4999) := by
  have hpc := storageCommissionToDomain_priceCents c d hd
  refine ⟨?_, ?_, ?_⟩
  · intro h
    rw [hpc]
    simp [rawPriceCents, h]
  · intro h hq
    rw [hpc]
    simp [rawPriceCents, h, hq]
  · have hval : rawPriceCents legacyPriceExample = 4999 := by
      norm_num [rawPriceCents, legacyPriceExample, roundHalfUp]
    refine ⟨_, storageCommissionToDomain_eq legacyPriceExample .notPaid rfl (by rw [hval]; norm_num), ?_⟩
    simp [domainCommissionToStorage, hval]

/-- Domain record produced by mapping `legacyPriceExample` with
`price_cents = 1234` added, for the C2 witness. -/
def centsPriceDomainExample : DomainCommission :=
  { id := "c1", client := { id := "cl1", name := "Ada", contactInfo := "", pfp := none }
    commType := "Sketch", priceCents := 1234, description := ""
    refs := [], date := "2024-01-01"
    paymentStatus := PaymentStatus.notPaid, status := DomainStatus.pending
    originalDate := none, completedDate := none }

/-- Witness for the C2 theorem: a record carrying `price_cents = 1234` maps
to a domain record with 1234 cents, and the 49.99 scenario holds at that
instantiation. -/
theorem storageCommissionToDomain_price_coercion_witness :
    centsPriceDomainExample.priceCents = 1234
    ∧ (∃ dEx, storageCommissionToDomain legacyPriceExample = some dEx
        ∧ (domainCommissionToStorage dEx "2024-01-03T00:00:00.000Z").price_cents
            = some 4999) := by
  have h := storageCommissionToDomain_price_coercion
    { legacyPriceExample with price_cents := some 1234 }
    centsPriceDomainExample 1234 0 (by decide)
  exact ⟨h.1 rfl, h.2.2⟩

/-- C3: for valid storage commission records (schema enumerations respected
and a nonnegative coerced cents value, as the write-path validation
guarantees), the storage-to-domain-to-storage round trip preserves the price
in cents, the payment status and the workflow status exactly; the
payment-status maps are mutually inverse bijections between the two literal
label sets, and any payment-status string outside the known set is a hard
mapping failure. -/
theorem storage_domain_roundtrip_and_payment_bijection
    (c : StorageCommission) (now : String)
    (hpay : c.payment_status = "Not Paid" ∨ c.payment_status = "Half Paid" ∨
      c.payment_status = "Fully Paid")
    (hst : c.status = "pending" ∨ c.status = "in-progress" ∨ c.status = "completed")
    (hnn : 0 ≤ rawPriceCents c) :
    (∃ d, storageCommissionToDomain c = some d
      ∧ (domainCommissionToStorage d now).price_cents = some (rawPriceCents c)
      ∧ (∀ pc, c.price_cents = some pc →
          (domainCommissionToStorage d now).price_cents = some pc)
      ∧ (domainCommissionToStorage d now).payment_status = c.payment_status
      ∧ (domainCommissionToStorage d now).status = c.status)
    ∧ (∀ p, mapPaymentStatusStorageToDomain (mapPaymentStatusDomainToStorage p) = some p)
    ∧ (∀ s p, mapPaymentStatusStorageToDomain s = some p →
        mapPaymentStatusDomainToStorage p = s)
    ∧ (∀ s, s ≠ "Not Paid" → s ≠ "Half Paid" → s ≠ "Fully Paid" →
        mapPaymentStatusStorageToDomain s = none) := by
  refine ⟨?_, fun p => by cases p <;> rfl, ?_, ?_⟩
  · rcases hpay with h | h | h <;>
      refine ⟨_, storageCommissionToDomain_eq c _ (by rw [h]; rfl) hnn,
        rfl, fun pc hpc => by simp [domainCommissionToStorage, rawPriceCents, hpc],
        by simp [domainCommissionToStorage, mapPaymentStatusDomainToStorage, h], ?_⟩ <;>
      rcases hst with h2 | h2 | h2 <;>
      simp [domainCommissionToStorage, h2]
  · intro s p h
    by_cases h1 : s = "Not Paid"
    · subst h1
      simp [mapPaymentStatusStorageToDomain] at h
      rw [← h]; rfl
    · by_cases h2 : s = "Half Paid"
      · subst h2
        simp [mapPaymentStatusStorageToDomain] at h
        rw [← h]; rfl
      · by_cases h3 : s = "Fully Paid"
        · subst h3
          simp [mapPaymentStatusStorageToDomain] at h
          rw [← h]; rfl
        · simp [mapPaymentStatusStorageToDomain, h1, h2, h3] at h
  · intro s hA hB hC
    simp [mapPaymentStatusStorageToDomain, hA, hB, hC]

/-- Concrete valid storage record for the C3 witness. -/
def validStorageExample : StorageCommission :=
  { id := "c2", client_id := "cl2", client_name := "Brin", title := "Icon"
    description := "d", price := none, price_cents := some 1500
    payment_status := "Half Paid", status := "in-progress"
    created_at := "2024-02-01T00:00:00.000Z", updated_at := "2024-02-03T00:00:00.000Z"
    images := ["http://a/img.png"] }

/-- Witness for the C3 theorem: the round trip preserves the fields of a
concrete valid record. -/
theorem storage_domain_roundtrip_and_payment_bijection_witness :
    ∃ d, storageCommissionToDomain validStorageExample = some d
      ∧ (domainCommissionToStorage d "t").price_cents
          = some (rawPriceCents validStorageExample)
      ∧ (∀ pc, validStorageExample.price_cents = some pc →
          (domainCommissionToStorage d "t").price_cents = some pc)
      ∧ (domainCommissionToStorage d "t").payment_status
          = validStorageExample.payment_status
      ∧ (domainCommissionToStorage d "t").status = validStorageExample.status :=
  (storage_domain_roundtrip_and_payment_bijection validStorageExample "t"
    (Or.inr (Or.inl rfl)) (Or.inr (Or.inl rfl)) (by decide)).1

/-- Image selection as the claim states it, modelled from the claim text:
the url whenever the field is present, the name only when the url is absent.
This differs from the source expression `r.url || r.name`, which also falls
back to the name when the url is present but the empty string. -/
def urlOrNameClaim (r : CommissionRef) : String :=
  match r.url with
  | some u => u
  | none => r.name

/-- Image reference whose url is present but empty, distinguishing the two
selection rules. -/
def emptyUrlRef : CommissionRef := { name := "ref name", url := some "", type := RefType.image }

/-- Text reference used to show that text references are discarded. -/
def textRefExample : CommissionRef := { name := "notes", url := none, type := RefType.text }

/-- Domain commission with one text reference and one empty-url image
reference. -/
def refsDomainExample : DomainCommission :=
  { id := "c3", client := { id := "cl3", name := "Cy", contactInfo := "", pfp := none }
    commType := "Banner", priceCents := 100, description := ""
    refs := [textRefExample, emptyUrlRef], date := "2024-03-01"
    paymentStatus := .fullyPaid, status := .pending
    originalDate := none, completedDate := none }

/-- C10 counterexample: the stored image list is not always the url of each
image reference with the name used only for an absent url — for an image
reference whose url is present but empty, the source falls back to the name,
so the stored list is the name list, not the url list the claim prescribes. -/
theorem domainCommissionToStorage_images_claim_counterexample :
    (domainCommissionToStorage refsDomainExample "t").images = ["ref name"]
    ∧ (domainCommissionToStorage refsDomainExample "t").images
        ≠ (refsDomainExample.refs.filter (fun r => r.type = RefType.image)).map
          urlOrNameClaim := by
  constructor
  · decide
  · decide

/-- C10 amended: domainCommissionToStorage persists exactly the references
of type image into the storage images list — as their url, or their name
when the url is absent or empty — discarding text references entirely; and
mapping the result back to domain turns each surviving image into a
reference named `Image i` of type image, so the round trip through storage
preserves neither text references nor original reference names. -/
theorem domainCommissionToStorage_images_amended
    (c : DomainCommission) (now : String) (h : 0 ≤ c.priceCents) :
    (domainCommissionToStorage c now).images
        = (c.refs.filter (fun r => r.type = RefType.image)).map urlOrName
    ∧ (∀ r, r.type = RefType.text →
        (domainCommissionToStorage { c with refs := r :: c.refs } now).images
          = (domainCommissionToStorage c now).images)
    ∧ (∃ d, storageCommissionToDomain (domainCommissionToStorage c now) = some d
        ∧ d.refs = enumImageRefs 0
            ((c.refs.filter (fun r => r.type = RefType.image)).map urlOrName)) := by
  refine ⟨rfl, ?_, ?_⟩
  · intro r hr
    simp [domainCommissionToStorage, hr]
  · have hps : mapPaymentStatusStorageToDomain
        ((domainCommissionToStorage c now).payment_status) = some c.paymentStatus := by
      show mapPaymentStatusStorageToDomain
        (mapPaymentStatusDomainToStorage c.paymentStatus) = some c.paymentStatus
      cases c.paymentStatus <;> rfl
    have hnn : 0 ≤ rawPriceCents (domainCommissionToStorage c now) := by
      simpa [rawPriceCents, domainCommissionToStorage] using h
    exact ⟨_, storageCommissionToDomain_eq _ _ hps hnn, rfl⟩

/-- Witness for the amended C10 theorem at the concrete example commission. -/
theorem domainCommissionToStorage_images_amended_witness :
    (domainCommissionToStorage refsDomainExample "t").images
        = (refsDomainExample.refs.filter (fun r => r.type = RefType.image)).map urlOrName
    ∧ (domainCommissionToStorage
          { refsDomainExample with refs := textRefExample :: refsDomainExample.refs }
          "t").images
        = (domainCommissionToStorage refsDomainExample "t").images
    ∧ (∃ d, storageCommissionToDomain (domainCommissionToStorage refsDomainExample "t")
          = some d
        ∧ d.refs = enumImageRefs 0
            ((refsDomainExample.refs.filter (fun r => r.type = RefType.image)).map
              urlOrName)) :=
  have h := domainCommissionToStorage_images_amended refsDomainExample "t" (by decide)
  ⟨h.1, h.2.1 textRefExample rfl, h.2.2⟩

/-! ## Bulk load (C4) -/

theorem length_filterMap_eq_countP {α β : Type} (f : α → Option β) (l : List α) :
    (l.filterMap f).length = l.countP (fun x => (f x).isSome) := by
  induction l with
  | nil => rfl
  | cons a l ih =>
    cases h : f a <;> simp [List.filterMap_cons, h, List.countP_cons, ih]

/-- Raw commission record template for the bulk-load scenario. -/
def mkRawExample (i : Nat) (pay : String) : RawCommission :=
  { id := "r" ++ toString i, client_id := "cl", client_name := "Ada", title := "T"
    description := some "", price := some 10, price_cents := none
    payment_status := pay, status := "pending"
    created_at := "2024-01-01T00:00:00.000Z", updated_at := "2024-01-01T00:00:00.000Z"
    images := some [] }

/-- Bulk-load batch of five records, the third of which carries an invalid
payment-status string. -/
def invalidBatchExample : List RawCommission :=
  [mkRawExample 1 "Not Paid", mkRawExample 2 "Half Paid", mkRawExample 3 "Paid",
   mkRawExample 4 "Fully Paid", mkRawExample 5 "Not Paid"]

/-- C4: a bulk load of commission records drops exactly the elements that
fail schema validation and returns every valid element, never aborting the
whole batch; in particular the five-record batch with one invalid
payment-status string loads to exactly four records. -/
theorem getCommissions_drops_invalid_keeps_valid
    (raws : List RawCommission) (r : RawCommission) (s : StorageCommission)
    (hr : r ∈ raws) (hs : safeParseStorageCommission r = some s) :
    (getCommissions raws).length
        = raws.countP (fun x => (safeParseStorageCommission x).isSome)
    ∧ s ∈ getCommissions raws
    ∧ (getCommissions invalidBatchExample).length = 4 :=
  ⟨length_filterMap_eq_countP _ _, List.mem_filterMap.mpr ⟨r, hr, hs⟩, by decide⟩

/-- Validated form of the first batch record, for the C4 witness. -/
def parsedRawExample : StorageCommission :=
  { id := "r1", client_id := "cl", client_name := "Ada", title := "T"
    description := "", price := some 10, price_cents := none
    payment_status := "Not Paid", status := "pending"
    created_at := "2024-01-01T00:00:00.000Z", updated_at := "2024-01-01T00:00:00.000Z"
    images := [] }

/-- Witness for the C4 theorem on the concrete batch. -/
theorem getCommissions_drops_invalid_keeps_valid_witness :
    (getCommissions invalidBatchExample).length
        = invalidBatchExample.countP (fun x => (safeParseStorageCommission x).isSome)
    ∧ parsedRawExample ∈ getCommissions invalidBatchExample
    ∧ (getCommissions invalidBatchExample).length = 4 :=
  getCommissions_drops_invalid_keeps_valid invalidBatchExample
    (mkRawExample 1 "Not Paid") parsedRawExample (by decide) (by decide)

/-! ## Mark incomplete (C9) -/

/-- Pending record rebuilt by markCommissionIncomplete from a completed
commission: status Pending, date taken from the original start date, the
remaining fields carried over. -/
def restoredPending (c : HistoryCommission) : PendingCommission :=
  { id := c.id, client := c.client, commType := c.commType, price := c.price
    description := c.description, refs := c.refs, date := c.originalDate
    paymentStatus := c.paymentStatus, isPinned := none, status := PendStatus.pending }

/-- C9: marking a completed commission incomplete appends to the pending
partition a record whose workflow status is Pending and whose date is the
commission's original start date — not its completion date — with client,
type, price, description, references and payment status carried over
unchanged, and removes the commission from the history partition. -/
theorem markCommissionIncomplete_restores_original_date
    (st : CommState) (id : String) (c : HistoryCommission)
    (hc : st.history.find? (fun h => h.id == id) = some c) :
    (markCommissionIncomplete st id).pending = st.pending ++ [restoredPending c]
    ∧ (restoredPending c).date = c.originalDate
    ∧ (c.originalDate ≠ c.completedDate → (restoredPending c).date ≠ c.completedDate)
    ∧ (restoredPending c).status = PendStatus.pending
    ∧ (restoredPending c).client = c.client
    ∧ (restoredPending c).commType = c.commType
    ∧ (restoredPending c).price = c.price
    ∧ (restoredPending c).description = c.description
    ∧ (restoredPending c).refs = c.refs
    ∧ (restoredPending c).paymentStatus = c.paymentStatus
    ∧ (markCommissionIncomplete st id).history
        = st.history.filter (fun h => !(h.id == id)) := by
  refine ⟨?_, rfl, fun h => h, rfl, rfl, rfl, rfl, rfl, rfl, rfl, ?_⟩
  · simp [markCommissionIncomplete, hc, restoredPending]
  · simp [markCommissionIncomplete, hc]

/-- Concrete completed commission for the C9 witness. -/
def historyExample : HistoryCommission :=
  { id := "h1", client := { id := "cl4", name := "Dee", contactInfo := "", pfp := none }
    commType := "Cover", price := 25, description := "x", refs := []
    date := "2024-04-09", paymentStatus := .halfPaid, isPinned := none
    originalDate := "2024-04-01", completedDate := "2024-04-09" }

/-- Witness for the C9 theorem on a concrete one-element history. -/
theorem markCommissionIncomplete_restores_original_date_witness :
    (markCommissionIncomplete { pending := [], history := [historyExample] } "h1").pending
        = [] ++ [restoredPending historyExample]
    ∧ (restoredPending historyExample).date = historyExample.originalDate :=
  have h := markCommissionIncomplete_restores_original_date
    { pending := [], history := [historyExample] } "h1" historyExample (by decide)
  ⟨h.1, h.2.1⟩

/-! ## Emergency snapshot cleanup (C7) -/

theorem keys_removeItem (st : Store) (k : String) :
    (st.removeItem k).keys = st.keys.filter (fun x => !(x = k)) := by
  induction st with
  | nil => rfl
  | cons p rest ih =>
    simp only [Store.removeItem, Store.keys, List.filter_cons, List.map_cons] at *
    by_cases h : p.1 = k
    · simp [h, ih]
    · simp [h, ih]

theorem keys_foldl_removeItem (rem : List String) (st : Store) :
    (rem.foldl Store.removeItem st).keys
      = st.keys.filter (fun x => decide (x ∉ rem)) := by
  induction rem generalizing st with
  | nil => simp [List.filter_true]
  | cons a rem ih =>
    rw [List.foldl_cons, ih, keys_removeItem, List.filter_filter]
    apply List.filter_congr
    intro x _
    by_cases h1 : x = a <;> by_cases h2 : x ∈ rem <;> simp [h1, h2]

/-- C7: after a cleanup pass at most three emergency snapshots remain, and
the surviving emergency keys are exactly the first three of the
lexicographically descending (hence most recent, given the ISO-8601 naming)
key list. -/
theorem cleanupEmergencyBackups_retains_three_most_recent (st : Store)
    (hnd : st.keys.Nodup) :
    ((cleanupEmergencyBackups st).keys.filter
        (fun k => strStartsWith k emergencyPrefix)).length ≤ 3
    ∧ (∀ k, k ∈ (cleanupEmergencyBackups st).keys.filter
          (fun k => strStartsWith k emergencyPrefix)
        ↔ k ∈ (emergencyKeysDesc st).take 3) := by
  have hkeys : (cleanupEmergencyBackups st).keys
      = st.keys.filter (fun x => decide (x ∉ (emergencyKeysDesc st).drop 3)) :=
    keys_foldl_removeItem _ st
  have hperm : (emergencyKeysDesc st).Perm
      (st.keys.filter (fun k => strStartsWith k emergencyPrefix)) := by
    unfold emergencyKeysDesc sortKeysAsc
    exact (List.reverse_perm _).trans (List.perm_insertionSort _ _)
  have hE : (st.keys.filter (fun k => strStartsWith k emergencyPrefix)).Nodup :=
    hnd.filter _
  have hsd : (emergencyKeysDesc st).Nodup := hperm.nodup_iff.mpr hE
  have hsplit := List.take_append_drop 3 (emergencyKeysDesc st)
  have hdisj : (List.take 3 (emergencyKeysDesc st)).Disjoint
      (List.drop 3 (emergencyKeysDesc st)) :=
    List.disjoint_of_nodup_append (by rw [hsplit]; exact hsd)
  have hmem : ∀ k, k ∈ (cleanupEmergencyBackups st).keys.filter
        (fun k => strStartsWith k emergencyPrefix)
      ↔ k ∈ (emergencyKeysDesc st).take 3 := by
    intro k
    rw [List.mem_filter, hkeys, List.mem_filter]
    constructor
    · rintro ⟨⟨hk, hnr⟩, he⟩
      have hkE : k ∈ st.keys.filter (fun k => strStartsWith k emergencyPrefix) :=
        List.mem_filter.mpr ⟨hk, he⟩
      have hksd : k ∈ emergencyKeysDesc st := hperm.mem_iff.mpr hkE
      have hsplit' : k ∈ List.take 3 (emergencyKeysDesc st)
          ∨ k ∈ List.drop 3 (emergencyKeysDesc st) := by
        rw [← List.mem_append, hsplit]
        exact hksd
      rcases hsplit' with h | h
      · exact h
      · exact absurd h (of_decide_eq_true hnr)
    · intro hk3
      have hksd : k ∈ emergencyKeysDesc st := by
        rw [← hsplit]
        exact List.mem_append.mpr (Or.inl hk3)
      have hkE := hperm.mem_iff.mp hksd
      rcases List.mem_filter.mp hkE with ⟨hk, he⟩
      refine ⟨⟨hk, ?_⟩, he⟩
      exact decide_eq_true (fun hcontra => hdisj hk3 hcontra)
  refine ⟨?_, hmem⟩
  have hnodup2 : ((cleanupEmergencyBackups st).keys.filter
      (fun k => strStartsWith k emergencyPrefix)).Nodup := by
    rw [hkeys]
    exact (hnd.filter _).filter _
  have hsub : (cleanupEmergencyBackups st).keys.filter
      (fun k => strStartsWith k emergencyPrefix) ⊆ (emergencyKeysDesc st).take 3 :=
    fun k hk => (hmem k).mp hk
  calc ((cleanupEmergencyBackups st).keys.filter
        (fun k => strStartsWith k emergencyPrefix)).length
      ≤ ((emergencyKeysDesc st).take 3).length := (hnodup2.subperm hsub).length_le
    _ ≤ 3 := by simp

/-- Concrete store with five emergency snapshots for the C7 witness. -/
def emergencyStoreExample : Store :=
  [("commflow-emergency-backup-2024-01-01T00-00-00-000Z", Cell.parsable Json.null),
   ("commflow-emergency-backup-2024-01-02T00-00-00-000Z", Cell.parsable Json.null),
   ("commflow-emergency-backup-2024-01-03T00-00-00-000Z", Cell.parsable Json.null),
   ("commflow-emergency-backup-2024-01-04T00-00-00-000Z", Cell.parsable Json.null),
   ("commflow-emergency-backup-2024-01-05T00-00-00-000Z", Cell.parsable Json.null),
   ("commflow-settings", Cell.parsable Json.null)]

/-- Witness for the C7 theorem: the concrete five-snapshot store retains at
most three snapshots after cleanup. -/
theorem cleanupEmergencyBackups_retains_three_most_recent_witness :
    ((cleanupEmergencyBackups emergencyStoreExample).keys.filter
        (fun k => strStartsWith k emergencyPrefix)).length ≤ 3 :=
  (cleanupEmergencyBackups_retains_three_most_recent emergencyStoreExample (by decide)).1

/-! ## Sync coordinator lemmas (C8) -/

theorem countPhase_cons (x : SyncPhase) (l : List SyncPhase) (p : SyncPhase) :
    countPhase (x :: l) p = (if x = p then 1 else 0) + countPhase l p := by
  by_cases h : x = p
  · simp [countPhase, List.filter_cons, h]
    omega
  · simp [countPhase, List.filter_cons, h]

theorem countPhase_set (l : List SyncPhase) (i : Nat) (a b p : SyncPhase)
    (h : l.get? i = some a) :
    countPhase (l.set i b) p + (if a = p then 1 else 0)
      = countPhase l p + (if b = p then 1 else 0) := by
  induction l generalizing i with
  | nil => simp at h
  | cons x xs ih =>
    cases i with
    | zero =>
      simp only [List.get?] at h
      injection h with h
      subst h
      show countPhase (b :: xs) p + _ = countPhase (x :: xs) p + _
      rw [countPhase_cons, countPhase_cons]
      split_ifs <;> omega
    | succ n =>
      simp only [List.get?] at h
      have hrec := ih n h
      show countPhase (x :: xs.set n b) p + _ = countPhase (x :: xs) p + _
      rw [countPhase_cons, countPhase_cons]
      split_ifs at hrec ⊢ <;> omega

theorem countPhase_pos (l : List SyncPhase) (i : Nat) (p : SyncPhase)
    (h : l.get? i = some p) : 1 ≤ countPhase l p := by
  have hm : p ∈ l := List.get?_mem h
  have hf : p ∈ l.filter (fun q => q = p) := List.mem_filter.mpr ⟨hm, by simp⟩
  exact List.length_pos_of_mem hf

theorem countPhase_replicate (n : Nat) (q p : SyncPhase) (h : q ≠ p) :
    countPhase (List.replicate n q) p = 0 := by
  induction n with
  | zero => rfl
  | succ m ih => simp [countPhase, List.replicate, List.filter_cons, h, ih] at *

/-- Invariant of the sync coordinator: the in-flight flag tracks whether a
fetch round is running, at most one round runs at a time, and each fetch
counter equals the number of invocations that initiated a round. -/
def SyncInv (s : SyncState) : Prop :=
  (s.flag = false → countPhase s.tasks .inFlight = 0)
  ∧ (s.flag = true → countPhase s.tasks .inFlight = 1)
  ∧ s.clientFetches = countPhase s.tasks .inFlight + countPhase s.tasks .finished
  ∧ s.commissionFetches = countPhase s.tasks .inFlight + countPhase s.tasks .finished

theorem syncInv_init (n : Nat) : SyncInv (initSync n) := by
  refine ⟨fun _ => ?_, fun hcon => ?_, ?_, ?_⟩ <;>
    simp [initSync, countPhase_replicate] at *

theorem syncInv_step {s s' : SyncState} (h : SyncStep s s') (hs : SyncInv s) : SyncInv s' := by
  obtain ⟨h0, h1, hcf, hmf⟩ := hs
  cases h with
  | enter i hi hf =>
    have hcIF := countPhase_set s.tasks i .ready .inFlight .inFlight hi
    have hcFin := countPhase_set s.tasks i .ready .inFlight .finished hi
    have hIF0 : countPhase s.tasks .inFlight = 0 := h0 hf
    simp only [reduceCtorEq, if_false, if_true, ite_false, ite_true] at hcIF hcFin
    refine ⟨fun hfalse => by simp at hfalse, fun _ => ?_, ?_, ?_⟩
    · show countPhase (s.tasks.set i .inFlight) .inFlight = 1
      omega
    · show s.clientFetches + 1
        = countPhase (s.tasks.set i .inFlight) .inFlight
          + countPhase (s.tasks.set i .inFlight) .finished
      omega
    · show s.commissionFetches + 1
        = countPhase (s.tasks.set i .inFlight) .inFlight
          + countPhase (s.tasks.set i .inFlight) .finished
      omega
  | skip i hi hf =>
    have hcIF := countPhase_set s.tasks i .ready .noop .inFlight hi
    have hcFin := countPhase_set s.tasks i .ready .noop .finished hi
    have hIF1 : countPhase s.tasks .inFlight = 1 := h1 hf
    simp only [reduceCtorEq, if_false, if_true, ite_false, ite_true] at hcIF hcFin
    refine ⟨fun hfalse => by simp at hfalse, fun _ => ?_, ?_, ?_⟩
    · show countPhase (s.tasks.set i .noop) .inFlight = 1
      omega
    · show s.clientFetches
        = countPhase (s.tasks.set i .noop) .inFlight
          + countPhase (s.tasks.set i .noop) .finished
      omega
    · show s.commissionFetches
        = countPhase (s.tasks.set i .noop) .inFlight
          + countPhase (s.tasks.set i .noop) .finished
      omega
  | finish i hi =>
    have hcIF := countPhase_set s.tasks i .inFlight .finished .inFlight hi
    have hcFin := countPhase_set s.tasks i .inFlight .finished .finished hi
    have hpos : 1 ≤ countPhase s.tasks .inFlight := countPhase_pos s.tasks i .inFlight hi
    have hIF1 : countPhase s.tasks .inFlight = 1 := by
      cases hflag : s.flag
      · exact absurd (h0 hflag) (by omega)
      · exact h1 hflag
    simp only [reduceCtorEq, if_false, if_true, ite_false, ite_true] at hcIF hcFin
    refine ⟨fun _ => ?_, fun htrue => by simp at htrue, ?_, ?_⟩
    · show countPhase (s.tasks.set i .finished) .inFlight = 0
      omega
    · show s.clientFetches
        = countPhase (s.tasks.set i .finished) .inFlight
          + countPhase (s.tasks.set i .finished) .finished
      omega
    · show s.commissionFetches
        = countPhase (s.tasks.set i .finished) .inFlight
          + countPhase (s.tasks.set i .finished) .finished
      omega

theorem syncInv_reachable {n : Nat} {s : SyncState} (h : SyncReachable n s) : SyncInv s := by
  unfold SyncReachable at h
  induction h with
  | refl => exact syncInv_init n
  | tail _ hstep ih => exact syncInv_step hstep ih

/-- Final state of the two-overlapping-calls scenario: the first call
fetched and finished, the second found the flag set and became a no-op. -/
def concurrentSyncFinal : SyncState :=
  { flag := false, tasks := [.finished, .noop], clientFetches := 1, commissionFetches := 1 }

/-- C8: syncNow is process-wide single-flight — in every reachable state at
most one fetch round is in flight (two rounds never run at once), each
collection has been fetched exactly once per invocation that entered (a call
that finds the flag set fetches nothing), and the concrete interleaving of
two concurrent calls ends with exactly one fetch of each collection. -/
theorem syncNow_single_flight (n : Nat) :
    (∀ s, SyncReachable n s → inFlightCount s ≤ 1)
    ∧ (∀ s, SyncReachable n s →
        s.clientFetches = enteredCount s ∧ s.commissionFetches = enteredCount s)
    ∧ (SyncReachable 2 concurrentSyncFinal
        ∧ concurrentSyncFinal.clientFetches = 1
        ∧ concurrentSyncFinal.commissionFetches = 1
        ∧ inFlightCount concurrentSyncFinal = 0) := by
  refine ⟨?_, ?_, ?_, rfl, rfl, rfl⟩
  · intro s hs
    obtain ⟨h0, h1, -, -⟩ := syncInv_reachable hs
    show countPhase s.tasks .inFlight ≤ 1
    cases hflag : s.flag
    · have := h0 hflag
      omega
    · have := h1 hflag
      omega
  · intro s hs
    obtain ⟨-, -, hcf, hmf⟩ := syncInv_reachable hs
    exact ⟨hcf, hmf⟩
  · exact Relation.ReflTransGen.head (SyncStep.enter (initSync 2) 0 rfl rfl)
      (Relation.ReflTransGen.head (SyncStep.skip _ 1 rfl rfl)
        (Relation.ReflTransGen.single (SyncStep.finish _ 0 rfl)))

/-- Witness for the C8 theorem at the initial two-task state. -/
theorem syncNow_single_flight_witness :
    inFlightCount (initSync 2) ≤ 1
    ∧ (initSync 2).clientFetches = enteredCount (initSync 2) :=
  ⟨(syncNow_single_flight 2).1 (initSync 2) Relation.ReflTransGen.refl,
   ((syncNow_single_flight 2).2.1 (initSync 2) Relation.ReflTransGen.refl).1⟩

end CommFlow
